import Mathlib

/-
Shallow embedding of the gowatcher program (main.go, utilities.go): a
directory-watching transcode queue. Paths and file names are modelled as
lists of characters. The Go standard-library helpers the program calls
(path.Ext, filepath.Base on Unix) are embedded from their byte-level
behaviour; the worker loop body, the watcher event guard, the directory
bootstrap helpers of utilities.go and the startup order of main are
embedded from the source.
-/

namespace Gowatcher

/-- Scanner for Go path.Ext, working on the REVERSED path: collect
characters from the end of the path until the first dot (inclusive);
reaching a slash or the start of the string first means no extension.
Returns the reversed extension, a prefix of the reversed path. -/
def extR : List Char → List Char
  | [] => []
  | c :: r =>
    if c = '/' then []
    else if c = '.' then [c]
    else if extR r = [] then [] else c :: extR r

/-- Go path.Ext: the suffix of the path beginning at the final dot in the
final slash-separated element; empty if there is no dot there. -/
def pathExt (p : List Char) : List Char := (extR p.reverse).reverse

/-- Go filepath.Base on Unix: "." for the empty path, then trailing
slashes are stripped; "/" if nothing remains; otherwise everything after
the final slash. -/
def filepathBase (p : List Char) : List Char :=
  if p = [] then ['.']
  else
    let r := p.reverse.dropWhile (fun c => c == '/')
    if r = [] then ['/']
    else (r.takeWhile (fun c => c != '/')).reverse

/-- The worker's naming step from main.go:
ext := path.Ext(file); outFile := file[0:len(file)-len(ext)] + ".mp4". -/
def outFile (file : List Char) : List Char :=
  file.take (file.length - (pathExt file).length) ++ ".mp4".data

/-- The output file name the worker places in the working and finished
directories: filepath.Base(outFile). -/
def outName (file : List Char) : List Char := filepathBase (outFile file)

/-- The last character of a path, if any (the path ends with '/' exactly
when this is some '/'). -/
def lastChar (p : List Char) : Option Char := p.reverse.head?

/-- Modelled from the spec's words (for comparison with the code's
computation `outName`): the input's base name with its extension — the
suffix starting at the last dot of the base name — removed, and ".mp4"
appended. -/
def specOutputName (file : List Char) : List Char :=
  (filepathBase file).take
      ((filepathBase file).length - (pathExt (filepathBase file)).length)
    ++ ".mp4".data

/-- workingFilepath := fmt.Sprintf("%s/%s", workingDirAbs, filepath.Base(outFile)). -/
def workingFilepath (workingDirAbs file : List Char) : List Char :=
  workingDirAbs ++ '/' :: outName file

/-- The ffmpeg argument list the worker builds, append by append as in
main.go: input flags, then "-i" and the input path, then output flags,
then the working-directory output path. -/
def ffmpegCmdFlags (inFlags outFlags : List (List Char))
    (file workingDirAbs : List Char) : List (List Char) :=
  ((([] ++ inFlags) ++ ["-i".data, file]) ++ outFlags)
    ++ [workingFilepath workingDirAbs file]

/-- Whether a stat'ed path is a regular file or a directory (info.IsDir()). -/
inductive FileInfoKind
  | regular
  | directory
deriving DecidableEq

/-- Result of os.Stat on a watcher event path: found (with a non-nil
FileInfo), a not-exists error, or any other error — in the two error
cases the returned FileInfo is nil. -/
inductive StatOutcome
  | found (k : FileInfoKind)
  | notExist
  | otherErr
deriving DecidableEq

/-- The watcher event guard from main.go:
`!os.IsNotExist(err) && !info.IsDir() && string(event.Name[0]) != "."`,
evaluated left to right with short-circuiting. `some b` means the guard
evaluates to `b` (the path is enqueued iff `b = true`); `none` models a
runtime panic: dereferencing the nil FileInfo when the stat error is not
a not-exists error, or indexing byte 0 of an empty event name. Note the
hidden-file test inspects the first character of the WHOLE event path,
not of its base name, exactly as the source does. -/
def watcherGuard (st : StatOutcome) (name : List Char) : Option Bool :=
  match st with
  | .notExist => some false
  | .otherErr => none
  | .found k =>
    if k = .directory then some false
    else
      match name with
      | [] => none
      | c :: _ => some (decide (c ≠ '.'))

/-- The backlog-scan filter from main.go:
`!file.IsDir() && file.Name()[0] != '.'` — here the test is on the entry
NAME (no directory part), as returned by ioutil.ReadDir. `none` again
models the panic on an empty name. -/
def backlogEnqueues (k : FileInfoKind) (name : List Char) : Option Bool :=
  if k = .directory then some false
  else
    match name with
    | [] => none
    | c :: _ => some (decide (c ≠ '.'))

/-- What a fixed path refers to on disk: a regular file, or a directory
with the given entry names. -/
inductive Entry
  | file
  | dir (contents : List (List Char))
deriving DecidableEq

/-- The state os.Stat observes at a fixed path: nothing there, a stat
error that is not a not-exists error, or an entry. -/
inductive PathState
  | notExist
  | statError
  | found (e : Entry)
deriving DecidableEq

/-- dirExists from utilities.go: an error when stat fails with an error
that is not not-exists; (false, nil) when the path is absent or is not a
directory; (true, nil) when it is a directory. -/
def dirExists : PathState → Except Unit Bool
  | .statError => .error ()
  | .notExist => .ok false
  | .found .file => .ok false
  | .found (.dir _) => .ok true

/-- os.Mkdir at the path: fails if something is already there; on an
absent path it succeeds — creating an empty directory — exactly when the
environment permits it (`mkdirOk`: parent exists, permissions allow). -/
def mkdir (mkdirOk : Bool) : PathState → Except Unit PathState
  | .notExist => if mkdirOk then .ok (.found (.dir [])) else .error ()
  | _ => .error ()

/-- createDir from utilities.go: consult dirExists; propagate its error;
succeed without change when the directory exists; otherwise os.Mkdir.
Returns the resulting state of the path. -/
def createDir (mkdirOk : Bool) (s : PathState) : Except Unit PathState :=
  match dirExists s with
  | .error _ => .error ()
  | .ok true => .ok s
  | .ok false => mkdir mkdirOk s

/-- os.RemoveAll at the path: deletes the entry and everything under it;
after it succeeds nothing is at the path. -/
def removeAll (_ : PathState) : PathState := .notExist

/-- The working-directory step of main's Directory Topology:
os.RemoveAll(workingDirAbs) followed by createDir(workingDirAbs). -/
def resetWorkingDir (mkdirOk : Bool) (s : PathState) : Except Unit PathState :=
  createDir mkdirOk (removeAll s)

/-- The directory state the worker manipulates: the full paths present in
the queue directory and the file names present in working and finished. -/
structure FSState where
  queue : List (List Char)
  working : List (List Char)
  finished : List (List Char)
deriving DecidableEq

/-- The externally determined outcomes of one job's system calls: whether
cmd.Run() returned nil (spawn ok and exit code zero), whether os.Rename
succeeded, and whether os.Remove succeeded. -/
structure CmdEnv where
  runOk : Bool
  renameOk : Bool
  removeOk : Bool
deriving DecidableEq

/-- Result of one worker-loop iteration: continue with a new directory
state, or the process exits non-zero (os.Exit(1)). -/
inductive WorkerResult
  | next (fs : FSState)
  | fatal
deriving DecidableEq

/-- The worker loop body for one dequeued file f, from main.go: run the
command; on error only log; on success rename the output from working to
finished (a rename error is fatal: os.Exit(1)), then best-effort remove
the original from queue with the error discarded (`_ = os.Remove(file)`). -/
def processFile (env : CmdEnv) (f : List Char) (fs : FSState) : WorkerResult :=
  if env.runOk then
    if env.renameOk then
      if env.removeOk then
        .next { queue := fs.queue.erase f,
                working := fs.working.erase (outName f),
                finished := fs.finished ++ [outName f] }
      else
        .next { queue := fs.queue,
                working := fs.working.erase (outName f),
                finished := fs.finished ++ [outName f] }
    else .fatal
  else .next fs

/-- The startup actions of main, one constructor per step. -/
inductive StartupStep
  | dirTopology
  | startWorker
  | startWatcherLoop
  | watcherSubscribe
  | backlogScan
  | awaitInterrupt
deriving DecidableEq

/-- The order in which main performs its startup actions, as written in
the source: directory topology, start the worker goroutine, start the
watcher event-loop goroutine, watcher.Add(queueDirAbs) (the watcher
begins observing), the backlog ReadDir scan and enqueue loop, then wait
for an interrupt. -/
def mainStartupSequence : List StartupStep :=
  [.dirTopology, .startWorker, .startWatcherLoop,
   .watcherSubscribe, .backlogScan, .awaitInterrupt]

/-- Per-job outcome of the external command, success or failure. -/
inductive Outcome
  | success
  | failure
deriving DecidableEq

/-- Observable events of the worker loop, tagged with the dequeue index
of the job they belong to. -/
inductive WEvent
  | start (i : Nat)
  | exit (i : Nat) (o : Outcome)
  | renamed (i : Nat)
  | removed (i : Nat)
deriving DecidableEq

/-- The dequeue index an event belongs to. -/
def WEvent.idx : WEvent → Nat
  | .start i => i
  | .exit i _ => i
  | .renamed i => i
  | .removed i => i

/-- The events one worker-loop iteration produces for job i: the command
is spawned, it exits, and on success the rename and remove follow. -/
def jobBlock (i : Nat) : Outcome → List WEvent
  | .success => [.start i, .exit i .success, .renamed i, .removed i]
  | .failure => [.start i, .exit i .failure]

/-- The event trace of the worker goroutine consuming jobs in order,
starting at dequeue index i: the loop body is synchronous, so each job's
block completes before the next iteration begins. -/
def workerTraceAux (i : Nat) : List Outcome → List WEvent
  | [] => []
  | o :: os => jobBlock i o ++ workerTraceAux (i + 1) os

/-- The event trace of the worker on a list of job outcomes. -/
def workerTrace (os : List Outcome) : List WEvent := workerTraceAux 0 os

/-- C1 (code bug): a creation event for /tank/queue/.DS_Store whose stat
finds a regular file passes the watcher guard (the guard tests the first
character of the whole path, '/', not of the base name), so the hidden
file IS enqueued, although its base name begins with '.'. -/
theorem c1_hidden_file_enqueued :
    watcherGuard (.found .regular) "/tank/queue/.DS_Store".data = some true
      ∧ (filepathBase "/tank/queue/.DS_Store".data).head? = some '.' := by
  constructor
  · decide
  · decide

/-- C2 counterexample: in main's startup order the backlog scan does NOT
precede the watcher subscription — both steps occur, and the subscription
comes first. -/
theorem c2_scan_not_before_subscribe :
    ¬ (mainStartupSequence.indexOf .backlogScan
        < mainStartupSequence.indexOf .watcherSubscribe)
      ∧ StartupStep.backlogScan ∈ mainStartupSequence
      ∧ StartupStep.watcherSubscribe ∈ mainStartupSequence := by
  decide

/-- C2 amended: at startup the watcher is subscribed to creation events
before the backlog scan runs, so backlog items are enqueued only after
the watcher has begun observing (and are therefore not guaranteed to
precede live-event items in the Work Queue). -/
theorem c2_subscribe_before_scan :
    mainStartupSequence.indexOf .watcherSubscribe
      < mainStartupSequence.indexOf .backlogScan := by
  decide

/-- C3: when the transcode command fails (non-zero exit or spawn error),
the worker takes no directory action: the state is unchanged — the input
stays in queue and nothing is added to finished — and the process
continues. -/
theorem c3_failure_state_unchanged (env : CmdEnv) (f : List Char) (fs : FSState)
    (h : env.runOk = false) : processFile env f fs = .next fs := by
  simp [processFile, h]

/-- Witness for C3 at a concrete failing job. -/
theorem c3_failure_state_unchanged_witness :
    (⟨false, true, true⟩ : CmdEnv).runOk = false
      ∧ processFile ⟨false, true, true⟩ "/tank/queue/b.mov".data
          ⟨["/tank/queue/b.mov".data], [], []⟩
        = .next ⟨["/tank/queue/b.mov".data], [], []⟩ :=
  ⟨rfl, c3_failure_state_unchanged ⟨false, true, true⟩ "/tank/queue/b.mov".data
    ⟨["/tank/queue/b.mov".data], [], []⟩ rfl⟩

/-- C4: on a zero exit the worker renames the output from working to
finished; a rename failure is fatal (the process exits non-zero); when
the rename succeeds the original is removed from queue, and a failure of
that removal is not fatal — the worker continues either way, with the
queue unchanged when the removal fails. -/
theorem c4_success_transitions (env : CmdEnv) (f : List Char) (fs : FSState)
    (h : env.runOk = true) :
    (env.renameOk = false → processFile env f fs = .fatal)
      ∧ (env.renameOk = true →
          processFile env f fs =
            .next { queue := if env.removeOk then fs.queue.erase f else fs.queue,
                    working := fs.working.erase (outName f),
                    finished := fs.finished ++ [outName f] }) := by
  constructor
  · intro h2
    simp [processFile, h, h2]
  · intro h2
    cases h3 : env.removeOk <;> simp [processFile, h, h2, h3]

/-- Witness for C4 at a concrete successful job (rename ok, removal
failing, hence non-fatal with the queue left unchanged). -/
theorem c4_success_transitions_witness :
    (⟨true, true, false⟩ : CmdEnv).runOk = true
      ∧ (((⟨true, true, false⟩ : CmdEnv).renameOk = false →
            processFile ⟨true, true, false⟩ "/tank/queue/a.mov".data
              ⟨["/tank/queue/a.mov".data], ["a.mp4".data], []⟩ = .fatal)
          ∧ ((⟨true, true, false⟩ : CmdEnv).renameOk = true →
              processFile ⟨true, true, false⟩ "/tank/queue/a.mov".data
                ⟨["/tank/queue/a.mov".data], ["a.mp4".data], []⟩ =
                .next { queue := if (⟨true, true, false⟩ : CmdEnv).removeOk then
                          (["/tank/queue/a.mov".data] : List (List Char)).erase
                            "/tank/queue/a.mov".data
                          else ["/tank/queue/a.mov".data],
                        working := (["a.mp4".data] : List (List Char)).erase
                          (outName "/tank/queue/a.mov".data),
                        finished := [] ++ [outName "/tank/queue/a.mov".data] })) :=
  ⟨rfl, c4_success_transitions ⟨true, true, false⟩ "/tank/queue/a.mov".data
    ⟨["/tank/queue/a.mov".data], ["a.mp4".data], []⟩ rfl⟩

/-- C7: after the Directory Topology step for the working directory
(RemoveAll then createDir) runs, the working directory exists and is
empty, whatever the path held before. -/
theorem c7_working_reset (s : PathState) :
    resetWorkingDir true s = .ok (.found (.dir [])) := rfl

/-- C8: the directory bootstrap is idempotent: if createDir succeeds once,
the resulting path is a directory, and calling createDir again (under any
environment) succeeds without error and leaves the state unchanged. -/
theorem c8_createDir_idempotent (mkdirOk mkdirOk' : Bool) (s s' : PathState)
    (h : createDir mkdirOk s = .ok s') :
    (∃ l, s' = .found (.dir l)) ∧ createDir mkdirOk' s' = .ok s' := by
  cases s with
  | notExist =>
    cases h2 : mkdirOk with
    | false => simp [createDir, dirExists, mkdir, h2] at h
    | true =>
      simp [createDir, dirExists, mkdir, h2] at h
      subst h
      exact ⟨⟨[], rfl⟩, rfl⟩
  | statError => simp [createDir, dirExists] at h
  | found e =>
    cases e with
    | file => simp [createDir, dirExists, mkdir] at h
    | dir l =>
      simp [createDir, dirExists] at h
      subst h
      exact ⟨⟨l, rfl⟩, rfl⟩

/-- Witness for C8: bootstrapping an absent path succeeds, and the second
call succeeds on the resulting directory without change. -/
theorem c8_createDir_idempotent_witness :
    createDir true .notExist = .ok (.found (.dir []))
      ∧ ((∃ l, (PathState.found (.dir [])) = .found (.dir l))
          ∧ createDir false (.found (.dir [])) = .ok (.found (.dir []))) :=
  ⟨rfl, c8_createDir_idempotent true false .notExist (.found (.dir [])) rfl⟩

/-- C9: the argument list of the invoked command is exactly the configured
input flags, then "-i" and the input path, then the configured output
flags, then the computed working-directory output path, which is the
final positional argument. -/
theorem c9_command_shape (inFlags outFlags : List (List Char))
    (file wd : List Char) :
    ffmpegCmdFlags inFlags outFlags file wd
        = inFlags ++ ["-i".data, file] ++ outFlags ++ [wd ++ '/' :: outName file]
      ∧ (ffmpegCmdFlags inFlags outFlags file wd).getLast?
          = some (wd ++ '/' :: outName file) := by
  constructor
  · simp [ffmpegCmdFlags, workingFilepath]
  · exact List.getLast?_concat _

/-- Every event in the block of job i carries the dequeue index i. -/
lemma jobBlock_idx {i : Nat} {o : Outcome} {e : WEvent}
    (h : e ∈ jobBlock i o) : e.idx = i := by
  cases o
  · simp [jobBlock] at h
    rcases h with rfl | rfl | rfl | rfl <;> rfl
  · simp [jobBlock] at h
    rcases h with rfl | rfl <;> rfl

/-- Every event in the trace starting at dequeue index k belongs to a job
of index at least k. -/
lemma traceAux_idx_ge {os : List Outcome} {k p : Nat} {e : WEvent}
    (h : (workerTraceAux k os).get? p = some e) : k ≤ e.idx := by
  induction os generalizing k p with
  | nil => simp [workerTraceAux] at h
  | cons o os ih =>
    rw [workerTraceAux] at h
    rcases Nat.lt_or_ge p (jobBlock k o).length with hp | hp
    · rw [List.get?_append hp] at h
      exact Nat.le_of_eq (jobBlock_idx (List.get?_mem h)).symm
    · rw [List.get?_append_right hp] at h
      exact Nat.le_of_succ_le (ih h)

/-- Every dequeued job's start event occurs in the trace. -/
lemma traceAux_start_exists {os : List Outcome} {k j : Nat}
    (h1 : k ≤ j) (h2 : j < k + os.length) :
    ∃ q, (workerTraceAux k os).get? q = some (.start j) := by
  induction os generalizing k with
  | nil => simp at h2; omega
  | cons o os ih =>
    rcases Nat.eq_or_lt_of_le h1 with rfl | hlt
    · refine ⟨0, ?_⟩
      cases o <;> rfl
    · have h2' : j < (k + 1) + os.length := by
        simp [List.length_cons] at h2
        omega
      obtain ⟨q, hq⟩ := ih hlt h2'
      refine ⟨(jobBlock k o).length + q, ?_⟩
      rw [workerTraceAux, List.get?_append_right (Nat.le_add_right _ _),
        Nat.add_sub_cancel_left]
      exact hq

/-- In the worker trace, the exit of an earlier job strictly precedes the
start of any later job. -/
lemma traceAux_exit_before_start {os : List Outcome} {k p q j j' : Nat}
    {o : Outcome} (hjj : j < j')
    (hp : (workerTraceAux k os).get? p = some (.start j'))
    (hq : (workerTraceAux k os).get? q = some (.exit j o)) : q < p := by
  induction os generalizing k p q with
  | nil => simp [workerTraceAux] at hp
  | cons o0 os ih =>
    rw [workerTraceAux] at hp hq
    rcases Nat.lt_or_ge p (jobBlock k o0).length with hpl | hpl
    · rw [List.get?_append hpl] at hp
      have hj' : j' = k := by
        have hx := jobBlock_idx (List.get?_mem hp)
        simpa [WEvent.idx] using hx
      rcases Nat.lt_or_ge q (jobBlock k o0).length with hql | hql
      · rw [List.get?_append hql] at hq
        have hj : j = k := by
          have hx := jobBlock_idx (List.get?_mem hq)
          simpa [WEvent.idx] using hx
        omega
      · rw [List.get?_append_right hql] at hq
        have hx := traceAux_idx_ge hq
        simp [WEvent.idx] at hx
        omega
    · rcases Nat.lt_or_ge q (jobBlock k o0).length with hql | hql
      · omega
      · rw [List.get?_append_right hpl] at hp
        rw [List.get?_append_right hql] at hq
        have hx := ih hp hq
        omega

/-- C6: processing is strictly serial: job i+1's start event exists in
the trace, and every start of job i+1 comes strictly after every exit
event of job i — the worker never spawns the next command before the
previous job's terminal outcome is resolved. -/
theorem c6_serial_processing (os : List Outcome) (i : Nat)
    (h : i + 1 < os.length) :
    (∃ q, (workerTrace os).get? q = some (.start (i + 1)))
      ∧ ∀ p q o, (workerTrace os).get? p = some (.start (i + 1)) →
          (workerTrace os).get? q = some (.exit i o) → q < p := by
  constructor
  · exact traceAux_start_exists (Nat.zero_le _) (by omega)
  · intro p q o hp hq
    exact traceAux_exit_before_start (Nat.lt_succ_self i) hp hq

/-- Witness for C6 on a concrete two-job trace. -/
theorem c6_serial_processing_witness :
    0 + 1 < ([Outcome.success, Outcome.failure] : List Outcome).length
      ∧ ((∃ q, (workerTrace [Outcome.success, Outcome.failure]).get? q
            = some (.start (0 + 1)))
          ∧ ∀ p q o,
              (workerTrace [Outcome.success, Outcome.failure]).get? p
                = some (.start (0 + 1)) →
              (workerTrace [Outcome.success, Outcome.failure]).get? q
                = some (.exit 0 o) → q < p) :=
  ⟨by decide, c6_serial_processing [Outcome.success, Outcome.failure] 0 (by decide)⟩

/-- takeWhile passes over a leading chunk that satisfies the predicate. -/
lemma takeWhile_append_all {α : Type} (p : α → Bool) {xs ys : List α}
    (h : ∀ c ∈ xs, p c = true) :
    (xs ++ ys).takeWhile p = xs ++ ys.takeWhile p := by
  induction xs with
  | nil => simp
  | cons a xs ih =>
    have ha : p a = true := h a (List.mem_cons_self a xs)
    rw [List.cons_append, List.takeWhile_cons_of_pos ha,
      ih (fun c hc => h c (List.mem_cons_of_mem a hc)), List.cons_append]

/-- The reversed extension is an initial chunk of the reversed path. -/
lemma extR_decomp (r : List Char) : ∃ t, r = extR r ++ t := by
  induction r with
  | nil => exact ⟨[], rfl⟩
  | cons c r ih =>
    by_cases h1 : c = '/'
    · exact ⟨c :: r, by simp [extR, h1]⟩
    · by_cases h2 : c = '.'
      · exact ⟨r, by simp [extR, h1, h2]⟩
      · by_cases h3 : extR r = []
        · exact ⟨c :: r, by simp [extR, h1, h2, h3]⟩
        · obtain ⟨t, ht⟩ := ih
          refine ⟨t, ?_⟩
          simp only [extR, if_neg h1, if_neg h2, if_neg h3, List.cons_append]
          rw [← ht]

/-- No character of the extension is a slash. -/
lemma extR_no_slash {r : List Char} {c : Char} (h : c ∈ extR r) : c ≠ '/' := by
  induction r with
  | nil => simp [extR] at h
  | cons a r ih =>
    by_cases h1 : a = '/'
    · simp [extR, h1] at h
    · by_cases h2 : a = '.'
      · simp [extR, h1, h2] at h
        subst h
        subst h2
        decide
      · by_cases h3 : extR r = []
        · simp [extR, h1, h2, h3] at h
        · simp only [extR, if_neg h1, if_neg h2, if_neg h3] at h
          rcases List.mem_cons.mp h with rfl | h4
          · exact h1
          · exact ih h4

/-- Cutting the reversed path at its first slash does not change the
extension the scanner finds. -/
lemma extR_takeWhile (r : List Char) :
    extR (r.takeWhile (fun c => c != '/')) = extR r := by
  induction r with
  | nil => rfl
  | cons a r ih =>
    by_cases h1 : a = '/'
    · rw [List.takeWhile_cons_of_neg (by simp [h1])]
      simp [extR, h1]
    · rw [List.takeWhile_cons_of_pos (by simp [h1])]
      by_cases h2 : a = '.'
      · simp [extR, h1, h2]
      · simp only [extR, if_neg h1, if_neg h2, ih]

/-- Evaluation of filepath.Base on a path whose last character is not a
slash: the base is the segment after the last slash. -/
lemma filepathBase_eval {p : List Char} {c : Char} {r : List Char}
    (hrev : p.reverse = c :: r) (hc : c ≠ '/') :
    filepathBase p = ((c :: r).takeWhile (fun c => c != '/')).reverse := by
  have hp : ¬ p = [] := by
    intro h
    rw [h] at hrev
    simp at hrev
  simp only [filepathBase, if_neg hp, hrev]
  rw [List.dropWhile_cons_of_neg (by simp [hc])]
  rw [if_neg (by simp)]

/-- C5: for every input path not ending in a slash, the worker's computed
output file name equals the spec's formula: the input's base name with
the suffix starting at its last dot removed, with ".mp4" appended. -/
theorem c5_output_naming (f : List Char) (h : lastChar f ≠ some '/') :
    outName f = specOutputName f := by
  rcases hr : f.reverse with _ | ⟨c, rtl⟩
  · have hf : f = [] := by
      have hx := congrArg List.reverse hr
      simpa using hx
    subst hf
    decide
  · have hc : c ≠ '/' := by
      intro hcc
      apply h
      rw [lastChar, hr, hcc]
      rfl
    obtain ⟨t, ht⟩ := extR_decomp f.reverse
    set E := extR f.reverse with hE
    have hA : f = t.reverse ++ E.reverse := by
      conv_lhs => rw [← List.reverse_reverse f]
      rw [ht, List.reverse_append]
    have hPE : pathExt f = E.reverse := by
      rw [pathExt, ← hE]
    have hlen : f.length - (pathExt f).length = t.reverse.length := by
      have hx := congrArg List.length hA
      simp only [List.length_append] at hx
      rw [hPE]
      omega
    have hC : outFile f = t.reverse ++ ".mp4".data := by
      rw [outFile, hlen]
      congr 1
      conv_lhs => rw [hA]
      exact List.take_left _ _
    have hrevL : (outFile f).reverse = '4' :: (['p', 'm', '.'] ++ t) := by
      rw [hC, List.reverse_append, List.reverse_reverse]
      rfl
    have hL : outName f
        = (('4' :: (['p', 'm', '.'] ++ t)).takeWhile (fun c => c != '/')).reverse := by
      rw [outName]
      exact filepathBase_eval hrevL (by decide)
    have hall4 : ∀ ch ∈ (['4', 'p', 'm', '.'] : List Char), (ch != '/') = true := by
      decide
    have hL2 : ('4' :: (['p', 'm', '.'] ++ t)) = ['4', 'p', 'm', '.'] ++ t := rfl
    have hL3 : outName f
        = (['4', 'p', 'm', '.'] ++ t.takeWhile (fun c => c != '/')).reverse := by
      rw [hL, hL2, takeWhile_append_all _ hall4]
    have hallE : ∀ ch ∈ E, (ch != '/') = true := by
      intro ch hch
      have hne := extR_no_slash (hE ▸ hch)
      simpa using hne
    have hbR : f.reverse.takeWhile (fun c => c != '/')
        = E ++ t.takeWhile (fun c => c != '/') := by
      conv_lhs => rw [ht]
      exact takeWhile_append_all _ hallE
    have hBase : filepathBase f
        = (E ++ t.takeWhile (fun c => c != '/')).reverse := by
      rw [filepathBase_eval hr hc, ← hr, hbR]
    have hPB : pathExt (filepathBase f) = E.reverse := by
      rw [pathExt, hBase, List.reverse_reverse, ← hbR, extR_takeWhile, ← hE]
    have hBlen : (filepathBase f).length - (pathExt (filepathBase f)).length
        = (t.takeWhile (fun c => c != '/')).reverse.length := by
      rw [hPB, hBase]
      simp only [List.length_reverse, List.length_append]
      omega
    have hS : specOutputName f
        = (t.takeWhile (fun c => c != '/')).reverse ++ ".mp4".data := by
      rw [specOutputName, hBlen, hBase, List.reverse_append]
      congr 1
      exact List.take_left _ _
    rw [hL3, hS, List.reverse_append]
    congr 1

/-- Witness for C5 at the spec's own example: .../queue/clip.mov yields
clip.mp4. -/
theorem c5_output_naming_witness :
    lastChar "/tank/queue/clip.mov".data ≠ some '/'
      ∧ outName "/tank/queue/clip.mov".data
          = specOutputName "/tank/queue/clip.mov".data
      ∧ outName "/tank/queue/clip.mov".data = "clip.mp4".data :=
  ⟨by decide, c5_output_naming "/tank/queue/clip.mov".data (by decide), by decide⟩

/-- C10: the watcher guard dereferences the nil FileInfo — a runtime
panic, modelled as `none` — whenever the stat error is neither nil nor a
not-exists error; a not-exists stat error is handled (the guard is false
and nothing is enqueued). -/
theorem c10_nil_info_on_other_stat_error (name : List Char) :
    watcherGuard .otherErr name = none
      ∧ watcherGuard .notExist name = some false :=
  ⟨rfl, rfl⟩

end Gowatcher
